import Mathlib

/-!
Verification of the overlay2 mount driver (`utils/mount/overlay2.go`).

Strings are embedded as `List Char`; the Go `strings` operations used by the
source (`Contains`, `Split`, `Join`, `TrimSpace`) are modelled over that type,
and `path.Join`/`path.Clean` from the Go standard library are modelled by the
usual lexical cleaning algorithm.  Fallible external effects (mkdir, the mount
syscall, `modprobe`, file reads, command execution, partition enumeration) are
supplied through explicit environment records, and the out-of-range slice
index that `mountCmdResultSplit` can hit is made visible as an explicit
`panic` result constructor.
-/

/-- Strings as lists of characters. -/
abbrev Str := List Char

/-- Character list of a string literal. -/
def str (s : String) : Str := s.data

/-- First occurrence of `sep` in a string, Go-style scanning from the left:
`some (a, b)` means the string is `a ++ sep ++ b` and `a` is shortest. -/
def cutFirst (sep : Str) : Str → Option (Str × Str)
  | [] => if sep.isEmpty then some ([], []) else none
  | c :: rest =>
    if sep.isPrefixOf (c :: rest) then some ([], (c :: rest).drop sep.length)
    else
      match cutFirst sep rest with
      | none => none
      | some (a, b) => some (c :: a, b)

/-- Go `strings.Contains`. -/
def strContains (s sub : Str) : Bool := (cutFirst sub s).isSome

/-- Fuelled worker for Go `strings.Split` (with non-empty separator). -/
def splitOnF (sep : Str) : Nat → Str → List Str
  | 0, s => [s]
  | fuel + 1, s =>
    match cutFirst sep s with
    | none => [s]
    | some (a, b) => a :: splitOnF sep fuel b

/-- Go `strings.Split s sep` for non-empty `sep`. -/
def splitOnL (s sep : Str) : List Str := splitOnF sep (s.length + 1) s

/-- Go `strings.Join` (separator first). -/
def joinL (sep : Str) : List Str → Str
  | [] => []
  | [x] => x
  | x :: y :: rest => x ++ sep ++ joinL sep (y :: rest)

/-- White-space test used by Go `strings.TrimSpace` (Latin-1 range). -/
def isSpaceGo (c : Char) : Bool :=
  c = ' ' || c = '\t' || c = '\n' || c = '\x0b' || c = '\x0c' || c = '\r' ||
  c = '\u0085' || c = ' '

/-- Go `strings.TrimSpace`. -/
def trimSpaceL (s : Str) : Str :=
  ((s.dropWhile isSpaceGo).reverse.dropWhile isSpaceGo).reverse

/-- One segment step of the lexical path-cleaning algorithm of Go
`path.Clean`: empty and `.` segments are dropped, `..` pops (bounded at the
root for rooted paths, accumulated otherwise). -/
def pathCleanStep (rooted : Bool) (acc : List Str) (seg : Str) : List Str :=
  if seg = [] ∨ seg = ['.'] then acc
  else if seg = ['.', '.'] then
    if rooted then acc.dropLast
    else if acc ≠ [] ∧ acc.getLast? ≠ some ['.', '.'] then acc.dropLast
    else acc ++ [seg]
  else acc ++ [seg]

/-- Go `path.Clean`. -/
def pathClean (p : Str) : Str :=
  if p = [] then ['.']
  else
    let rooted := p.head? = some '/'
    let stack := (splitOnL p ['/']).foldl (pathCleanStep rooted) []
    let out := joinL ['/'] stack
    if rooted then '/' :: out
    else if out = [] then ['.']
    else out

/-- Go `path.Join` restricted to two elements, as called by `Mount`. -/
def pathJoin (a b : Str) : Str :=
  if a = [] ∧ b = [] then []
  else if a = [] then pathClean b
  else if b = [] then pathClean a
  else pathClean (a ++ '/' :: b)

/-- Modelled from the spec: `utils.Reverse` (not under `src/`) reverses the
layer slice — "the mount-option lower-directory field equals the elements of
L in reverse order". -/
def utilsReverse (l : List Str) : List Str := l.reverse

/-! ## Basic facts about `cutFirst`, `strContains`, `splitOnL`, `joinL` -/

theorem cutFirst_nil {sep : Str} (h : sep ≠ []) : cutFirst sep [] = none := by
  simp [cutFirst, List.isEmpty_iff, h]

/-- One-step unfolding of `cutFirst` on a nonempty string. -/
theorem cutFirst_cons {sep : Str} {c : Char} {l : Str} :
    cutFirst sep (c :: l) =
      (if sep.isPrefixOf (c :: l) then some ([], (c :: l).drop sep.length)
       else
         match cutFirst sep l with
         | none => none
         | some (a, b) => some (c :: a, b)) := rfl

theorem cutFirst_self {sep b : Str} (hsep : sep ≠ []) :
    cutFirst sep (sep ++ b) = some ([], b) := by
  obtain ⟨d, sep', rfl⟩ := List.exists_cons_of_ne_nil hsep
  rw [List.cons_append, cutFirst_cons]
  have hp : (d :: sep').isPrefixOf (d :: (sep' ++ b)) = true := by
    rw [List.isPrefixOf_iff_prefix, ← List.cons_append]
    exact List.prefix_append _ _
  rw [if_pos hp, ← List.cons_append, List.drop_left]

theorem cutFirst_decomp {sep : Str} : ∀ {s a b : Str},
    cutFirst sep s = some (a, b) → s = a ++ sep ++ b := by
  intro s
  induction s with
  | nil =>
    intro a b h
    unfold cutFirst at h
    by_cases he : sep.isEmpty
    · rw [if_pos he] at h
      simp only [Option.some.injEq, Prod.mk.injEq] at h
      obtain ⟨rfl, rfl⟩ := h
      simp [List.isEmpty_iff.mp he]
    · rw [if_neg he] at h
      exact absurd h (by simp)
  | cons c rest ih =>
    intro a b h
    rw [cutFirst_cons] at h
    by_cases hp : sep.isPrefixOf (c :: rest)
    · rw [if_pos hp] at h
      simp only [Option.some.injEq, Prod.mk.injEq] at h
      obtain ⟨rfl, rfl⟩ := h
      obtain ⟨t, ht⟩ := List.isPrefixOf_iff_prefix.mp hp
      rw [← ht, List.drop_left, List.nil_append]
    · rw [if_neg hp] at h
      cases hr : cutFirst sep rest with
      | none => rw [hr] at h; exact absurd h (by simp)
      | some p =>
        obtain ⟨a', b'⟩ := p
        rw [hr] at h
        simp only [Option.some.injEq, Prod.mk.injEq] at h
        obtain ⟨rfl, rfl⟩ := h
        rw [ih hr]
        simp [List.cons_append, List.append_assoc]

theorem contains_nil_false {sep : Str} (h : sep ≠ []) : strContains [] sep = false := by
  simp [strContains, cutFirst_nil h]

theorem contains_false_iff {s sub : Str} : strContains s sub = false ↔ cutFirst sub s = none := by
  unfold strContains
  cases cutFirst sub s <;> simp

theorem contains_cons {sep a : Str} {c : Char} (h : strContains a sep = true) :
    strContains (c :: a) sep = true := by
  unfold strContains at h ⊢
  rw [cutFirst_cons]
  by_cases hp : sep.isPrefixOf (c :: a)
  · rw [if_pos hp]; rfl
  · rw [if_neg hp]
    cases hr : cutFirst sep a with
    | none => rw [hr] at h; simp at h
    | some p => simp [hr]

theorem contains_of_starts {sep s : Str} (hsep : sep ≠ []) (h : sep <+: s) :
    strContains s sep = true := by
  obtain ⟨t, rfl⟩ := h
  unfold strContains
  rw [cutFirst_self hsep]
  rfl

/-- No occurrence of `sep` in `a ++ b` starts strictly inside `a` and ends in
`b` (spanning-occurrence exclusion used by the split lemmas). -/
def noSpanAB (a sep b : Str) : Prop :=
  ∀ s₁ s₂ : Str, sep = s₁ ++ s₂ → s₁ ≠ [] → s₂ ≠ [] → s₁ <:+ a → s₂ <+: b → False

/-- The first character of `sep` occurs nowhere else in `sep` (true of all the
overlay markers, whose only comma is the leading one). -/
def uniqFirst : Str → Bool
  | [] => false
  | c :: rest => rest.all (fun x => x ≠ c)

/-- No nonempty proper initial piece of `sep` is a suffix of `a`. -/
def spanFree (a sep : Str) : Prop :=
  ∀ k, k < sep.length → 0 < k → ¬ (sep.take k <:+ a)

instance (a sep : Str) : Decidable (spanFree a sep) := by
  unfold spanFree; infer_instance

theorem noSpan_head_eq {a sep b : Str} (hu : uniqFirst sep = true)
    (hb : b.head? = sep.head?) : noSpanAB a sep b := by
  intro s₁ s₂ hse h1 h2 _ hpre
  obtain ⟨e, s₂', rfl⟩ := List.exists_cons_of_ne_nil h2
  obtain ⟨d, s₁', rfl⟩ := List.exists_cons_of_ne_nil h1
  obtain ⟨t, rfl⟩ := hpre
  subst hse
  simp only [List.cons_append, List.head?_cons] at hb
  obtain rfl : e = d := by simpa using hb
  simp only [List.cons_append, uniqFirst] at hu
  rw [List.all_eq_true] at hu
  have hmem : e ∈ s₁' ++ e :: s₂' := by simp
  simpa using hu _ hmem

theorem noSpan_head_nmem {a sep b : Str} (hb : ∀ x, b.head? = some x → x ∉ sep) :
    noSpanAB a sep b := by
  intro s₁ s₂ hse h1 h2 _ hpre
  obtain ⟨e, s₂', rfl⟩ := List.exists_cons_of_ne_nil h2
  obtain ⟨t, rfl⟩ := hpre
  refine hb e (by simp) ?_
  subst hse
  simp

theorem noSpan_spanFree {a sep b : Str} (h : spanFree a sep) : noSpanAB a sep b := by
  intro s₁ s₂ hse h1 h2 hsuf _
  have hpre : s₁ <+: sep := hse ▸ List.prefix_append s₁ s₂
  have htake : s₁ = sep.take s₁.length := List.prefix_iff_eq_take.mp hpre
  have hk1 : 0 < s₁.length := List.length_pos.mpr h1
  have hk2 : s₁.length < sep.length := by
    subst hse
    have : 0 < s₂.length := List.length_pos.mpr h2
    simp only [List.length_append]
    omega
  exact h s₁.length hk2 hk1 (htake ▸ hsuf)

theorem cutFirst_master {sep b : Str} (hsep : sep ≠ []) : ∀ {a : Str},
    strContains a sep = false → noSpanAB a sep b →
    cutFirst sep (a ++ b) = Option.map (fun p => (a ++ p.1, p.2)) (cutFirst sep b) := by
  intro a
  induction a with
  | nil =>
    intro _ _
    cases h : cutFirst sep b with
    | none => simp [h]
    | some p => simp [h]
  | cons c a' ih =>
    intro hna hns
    by_cases hp : sep.isPrefixOf (c :: a' ++ b)
    · exfalso
      have hpre : sep <+: (c :: a') ++ b := by
        simpa using List.isPrefixOf_iff_prefix.mp hp
      by_cases hlen : sep.length ≤ (c :: a').length
      · have : sep <+: c :: a' :=
          List.prefix_of_prefix_length_le hpre (List.prefix_append _ _) hlen
        rw [contains_of_starts hsep this] at hna
        exact absurd hna (by simp)
      · push_neg at hlen
        have hA : (c :: a') <+: sep :=
          List.prefix_of_prefix_length_le (List.prefix_append _ _) hpre (Nat.le_of_lt hlen)
        obtain ⟨s₂, hs⟩ := hA
        have hs₂ne : s₂ ≠ [] := by
          intro h
          rw [h, List.append_nil] at hs
          rw [← hs] at hlen
          omega
        have hs₂pre : s₂ <+: b := by
          have : (c :: a') ++ s₂ <+: (c :: a') ++ b := hs ▸ hpre
          exact (List.prefix_append_right_inj _).mp this
        exact hns (c :: a') s₂ hs.symm (by simp) hs₂ne (List.suffix_refl _) hs₂pre
    · have hna' : strContains a' sep = false := by
        by_contra h
        rw [Bool.not_eq_false] at h
        rw [contains_cons h] at hna
        exact absurd hna (by simp)
      have hns' : noSpanAB a' sep b := by
        intro s₁ s₂ hse h1 h2 hsuf hpre
        obtain ⟨t, ht⟩ := hsuf
        exact hns s₁ s₂ hse h1 h2 ⟨c :: t, by simp [← ht]⟩ hpre
      have heq := ih hna' hns'
      show cutFirst sep (c :: (a' ++ b)) = _
      rw [cutFirst_cons]
      simp only [List.cons_append] at hp
      rw [if_neg hp, heq]
      cases hb : cutFirst sep b with
      | none => rfl
      | some p =>
        obtain ⟨x, y⟩ := p
        simp

theorem cutFirst_some_length {sep s a b : Str} (hsep : sep ≠ [])
    (h : cutFirst sep s = some (a, b)) : b.length < s.length := by
  have := cutFirst_decomp h
  subst this
  have : 0 < sep.length := List.length_pos.mpr hsep
  simp only [List.length_append]
  omega

/-- One-step unfolding of the fuelled splitter. -/
theorem splitOnF_succ {sep : Str} {fuel : Nat} {s : Str} :
    splitOnF sep (fuel + 1) s =
      (match cutFirst sep s with
       | none => [s]
       | some (a, b) => a :: splitOnF sep fuel b) := rfl

theorem splitOnF_irrel {sep : Str} (hsep : sep ≠ []) :
    ∀ f1 f2 s, s.length < f1 → s.length < f2 → splitOnF sep f1 s = splitOnF sep f2 s := by
  intro f1
  induction f1 with
  | zero => intro f2 s h1 _; omega
  | succ n ih =>
    intro f2 s h1 h2
    cases f2 with
    | zero => omega
    | succ m =>
      rw [splitOnF_succ, splitOnF_succ]
      cases h : cutFirst sep s with
      | none => rfl
      | some p =>
        obtain ⟨a, b⟩ := p
        have hlt := cutFirst_some_length hsep h
        show a :: splitOnF sep n b = a :: splitOnF sep m b
        rw [ih m b (by omega) (by omega)]

theorem splitOnL_of_none {s sep : Str} (h : cutFirst sep s = none) : splitOnL s sep = [s] := by
  unfold splitOnL
  rw [splitOnF_succ, h]

theorem splitOnL_of_some {s sep a b : Str} (hsep : sep ≠ [])
    (h : cutFirst sep s = some (a, b)) : splitOnL s sep = a :: splitOnL b sep := by
  unfold splitOnL
  rw [splitOnF_succ, h]
  have hlt := cutFirst_some_length hsep h
  show a :: splitOnF sep s.length b = a :: splitOnF sep (b.length + 1) b
  rw [splitOnF_irrel hsep s.length (b.length + 1) b (by omega) (by omega)]

theorem splitOnL_ne_nil {s sep : Str} : splitOnL s sep ≠ [] := by
  unfold splitOnL
  rw [splitOnF_succ]
  cases h : cutFirst sep s with
  | none => simp
  | some p =>
    obtain ⟨a, b⟩ := p
    simp

theorem splitOnL_no {s sep : Str} (h : strContains s sep = false) : splitOnL s sep = [s] :=
  splitOnL_of_none (contains_false_iff.mp h)

theorem splitOnL_two_iff {s sep : Str} (hsep : sep ≠ []) :
    2 ≤ (splitOnL s sep).length ↔ strContains s sep = true := by
  constructor
  · intro h
    by_contra hc
    rw [Bool.not_eq_true] at hc
    rw [splitOnL_no hc] at h
    simp at h
  · intro h
    unfold strContains at h
    cases hc : cutFirst sep s with
    | none => rw [hc] at h; simp at h
    | some p =>
      obtain ⟨a, b⟩ := p
      rw [splitOnL_of_some hsep hc]
      have := @splitOnL_ne_nil b sep
      have : 0 < (splitOnL b sep).length := List.length_pos.mpr this
      simp only [List.length_cons]
      omega

theorem contains_singleton {M : Str} {c : Char} (hM : M ≠ []) (hc : c ∉ M) :
    strContains [c] M = false := by
  unfold strContains cutFirst
  by_cases hp : M.isPrefixOf [c]
  · exfalso
    obtain ⟨t, ht⟩ := List.isPrefixOf_iff_prefix.mp hp
    obtain ⟨d, M', rfl⟩ := List.exists_cons_of_ne_nil hM
    simp only [List.cons_append, List.cons.injEq] at ht
    obtain ⟨rfl, ht2⟩ := ht
    exact hc (by simp)
  · simp [hp, cutFirst_nil hM]

theorem joinL_two {sep x y : Str} {rest : List Str} :
    joinL sep (x :: y :: rest) = x ++ (sep ++ joinL sep (y :: rest)) := by
  show x ++ sep ++ joinL sep (y :: rest) = _
  rw [List.append_assoc]

/-- A marker that avoids the join character and every joined element does not
occur in the join. -/
theorem contains_joinL_false {M : Str} {c : Char} (hM : M ≠ []) (hc : c ∉ M) :
    ∀ {ls : List Str}, (∀ l ∈ ls, strContains l M = false) →
      strContains (joinL [c] ls) M = false := by
  intro ls
  induction ls with
  | nil => intro _; exact contains_nil_false hM
  | cons x rest ih =>
    intro h
    cases rest with
    | nil => exact h x (by simp)
    | cons y rest' =>
      rw [joinL_two]
      have hrest : strContains (joinL [c] (y :: rest')) M = false :=
        ih (fun l hl => h l (by simp [hl]))
      rw [contains_false_iff] at hrest ⊢
      rw [cutFirst_master hM (h x (by simp))
        (noSpan_head_nmem (by
          intro e he hmem
          simp only [List.singleton_append, List.head?_cons, Option.some.injEq] at he
          subst he
          exact hc hmem))]
      have hsingle : strContains [c] M = false := contains_singleton hM hc
      have hnsc : noSpanAB [c] M (joinL [c] (y :: rest')) := by
        intro s₁ s₂ hse h1 h2 hsuf _
        obtain ⟨t, ht⟩ := hsuf
        have hs1 : s₁ = [c] := by
          cases t with
          | nil => simpa using ht
          | cons u t' =>
            exfalso
            have hlen := congrArg List.length ht
            simp only [List.length_append, List.length_cons, List.length_nil] at hlen
            have h0 : 0 < s₁.length := List.length_pos.mpr h1
            omega
        subst hs1
        subst hse
        exact hc (by simp)
      show Option.map _ (cutFirst M ([c] ++ joinL [c] (y :: rest'))) = none
      rw [cutFirst_master hM hsingle hnsc, hrest]
      rfl

/-- Splitting a `c`-join of `c`-free elements recovers the elements. -/
theorem splitOnL_joinL {c : Char} :
    ∀ {ls : List Str}, ls ≠ [] → (∀ l ∈ ls, strContains l [c] = false) →
      splitOnL (joinL [c] ls) [c] = ls := by
  intro ls
  induction ls with
  | nil => intro h; exact absurd rfl h
  | cons x rest ih =>
    intro _ h
    cases rest with
    | nil => exact splitOnL_no (h x (by simp))
    | cons y rest' =>
      rw [joinL_two]
      have hcut : cutFirst [c] (x ++ ([c] ++ joinL [c] (y :: rest'))) =
          some (x, joinL [c] (y :: rest')) := by
        rw [cutFirst_master (by simp) (h x (by simp))
          (noSpan_head_eq (by simp [uniqFirst]) (by simp))]
        rw [cutFirst_self (by simp)]
        simp
      rw [splitOnL_of_some (by simp) hcut, ih (by simp) (fun l hl => h l (by simp [hl]))]

/-! ## Embedding of `utils/mount/overlay2.go` -/

/-- The marker `,upperdir=`. -/
def upM : Str := str ",upperdir="

/-- The marker `,lowerdir=`. -/
def lowM : Str := str ",lowerdir="

/-- The marker `,workdir=`. -/
def wkM : Str := str ",workdir="

/-- Go struct `Info {Target, Upper string; Lowers []string}`. -/
structure Info where
  Target : Str
  Upper : Str
  Lowers : List Str
deriving DecidableEq

/-- Result of `mountCmdResultSplit`: `notFound` is Go `(false, nil)`,
`found` is Go `(true, &Info{...})`, and `panic` is the run-time panic raised
by the unchecked index `strings.Split(data[0], ",lowerdir=")[1]` when that
split yields fewer than two fields. -/
inductive ParseResult where
  | panic
  | notFound
  | found (info : Info)
deriving DecidableEq

/-- Go `mountCmdResultSplit(result, target string) (bool, *Info)`. -/
def mountCmdResultSplit (result target : Str) : ParseResult :=
  if strContains result target = false then .notFound
  else if (splitOnL result upM).length < 2 then .notFound
  else
    match (splitOnL ((splitOnL result upM).getD 0 []) lowM).get? 1 with
    | none => .panic
    | some lowfield =>
      .found ⟨target,
              trimSpaceL ((splitOnL ((splitOnL result upM).getD 1 []) wkM).getD 0 []),
              utilsReverse (splitOnL lowfield (str ":"))⟩

/-- The mount data string built inside `Overlay2.Mount`:
`fmt.Sprintf("%slowerdir=%s,upperdir=%s,workdir=%s", indexOff,
strings.Join(utils.Reverse(layers), ":"), upperLayer, workdir)`. -/
def mountData (indexOff : Bool) (upperLayer : Str) (layers : List Str) (workdir : Str) : Str :=
  (if indexOff then str "index=off," else []) ++
    str "lowerdir=" ++ joinL (str ":") (utilsReverse layers) ++
    upM ++ upperLayer ++ wkM ++ workdir

/-- The option string `Mount` passes to the mount syscall for its target
(`workdir` is `path.Join(target, "work")`). -/
def mountOptionString (indexOff : Bool) (target upperLayer : Str) (layers : List Str) : Str :=
  mountData indexOff upperLayer layers (pathJoin target (str "work"))

/-- Outcome of `os.Stat("/sys/module/overlay/parameters/index")`. -/
inductive StatRes where
  | ok
  | notExist
  | otherErr
deriving DecidableEq

/-- External effects `Overlay2.Mount` depends on: whether `utils.Mkdir`
succeeds (modelled from the spec: the directory-creation helper is outside
`src/`), the index-parameter stat result, and the mount syscall outcome
(`none` = success, `some cause` = the error it returns).  `removeOk` is the
outcome of the deferred `os.RemoveAll`, which the code ignores. -/
structure MountEnv where
  mkdirOk : Bool
  statIndex : StatRes
  mountRes : Option Nat
  removeOk : Bool
deriving DecidableEq

/-- Filesystem-affecting calls issued by `Overlay2.Mount`, in order. -/
inductive FsEvent where
  | mkdir (dir : Str)
  | mountCall (device : Str) (target : Str) (fstype : Str) (data : Str)
  | removeAll (dir : Str)
deriving DecidableEq

/-- Return value of `Overlay2.Mount`: the two validation errors, the
workdir-creation error, the wrapped mount error, or success. -/
inductive MountResult where
  | errTargetEmpty
  | errLayersEmpty
  | errCreateWorkdir
  | errMount (target : Str) (cause : Nat)
  | ok
deriving DecidableEq

/-- Whether `Mount` sets `indexOff = "index=off,"`: only when the stat on the
kernel parameter file succeeds (`err == nil`). -/
def indexOffFlag : StatRes → Bool
  | .ok => true
  | .notExist => false
  | .otherErr => false

/-- Go `(o *Overlay2) Mount(target, upperLayer string, layers ...string)`,
returning its result together with the trace of filesystem effects. -/
def Overlay2Mount (env : MountEnv) (target upperLayer : Str) (layers : List Str) :
    MountResult × List FsEvent :=
  if target = [] then (.errTargetEmpty, [])
  else if layers = [] then (.errLayersEmpty, [])
  else
    let workdir := pathJoin target (str "work")
    if env.mkdirOk = false then (.errCreateWorkdir, [.mkdir workdir])
    else
      let data := mountData (indexOffFlag env.statIndex) upperLayer layers workdir
      match env.mountRes with
      | some cause =>
        (.errMount target cause,
         [.mkdir workdir, .mountCall (str "overlay") target (str "overlay") data,
          .removeAll workdir])
      | none =>
        (.ok, [.mkdir workdir, .mountCall (str "overlay") target (str "overlay") data])

/-- External effects `supportsOverlay` depends on: whether
`modprobe overlay` succeeds, and the lines of `/proc/filesystems`
(`none` = the open failed). -/
structure ProbeEnv where
  modprobeOk : Bool
  procFilesystems : Option (List Str)
deriving DecidableEq

/-- Go `supportsOverlay()`. -/
def supportsOverlay (env : ProbeEnv) : Bool :=
  if env.modprobeOk = false then false
  else
    match env.procFilesystems with
    | none => false
    | some lines => lines.any (fun l => l = str "nodev\toverlay")

/-- The two driver variants `NewMountDriver` can return. -/
inductive Driver where
  | overlay2
  | defaultDriver
deriving DecidableEq

/-- Go `NewMountDriver()`. -/
def NewMountDriver (env : ProbeEnv) : Driver :=
  if supportsOverlay env then .overlay2 else .defaultDriver

/-- System collaborators of the lookup functions: `utils.RunSimpleCmd`
(modelled from the spec: the command-execution helper is outside `src/`,
`none` = the command failed), and the `disk.Partitions` enumeration. -/
structure Partition where
  fstype : Str
  mountpoint : Str
deriving DecidableEq

structure SysEnv where
  runSimpleCmd : Str → Option Str
  partitions : List Partition

/-- Go `GetMountDetails(target string) (bool, *Info)`. -/
def GetMountDetails (env : SysEnv) (target : Str) : ParseResult :=
  match env.runSimpleCmd (str "mount | grep " ++ target) with
  | none => .notFound
  | some result => mountCmdResultSplit result target

/-- Remote command transport `ssh.Interface` (modelled from the spec:
`Run(host, command) -> (output, error)`). -/
structure SSHEnv where
  cmd : Str → Str → Option Str

/-- Go `GetRemoteMountDetails(s ssh.Interface, ip, target string)`. -/
def GetRemoteMountDetails (s : SSHEnv) (ip target : Str) : ParseResult :=
  match s.cmd ip (str "mount | grep " ++ target) with
  | none => .notFound
  | some result => mountCmdResultSplit result target

/-- The partition filter of `GetBuildMountInfo`. -/
def buildKeep (filterStr : Str) (p : Partition) : Bool :=
  p.fstype == str "overlay" && strContains p.mountpoint (str "sealer") &&
    strContains p.mountpoint filterStr

/-- Second loop of `GetBuildMountInfo`: look up each retained mount point and
keep the parses that produced an `Info`; `none` records that a lookup
panicked (aborting the Go program). -/
def collectInfos (env : SysEnv) : List Str → Option (List Info)
  | [] => some []
  | p :: rest =>
    match GetMountDetails env p with
    | .panic => none
    | .notFound => collectInfos env rest
    | .found i => Option.map (fun l => i :: l) (collectInfos env rest)

/-- Go `GetBuildMountInfo(filter string) []Info`. -/
def GetBuildMountInfo (env : SysEnv) (filterStr : Str) : Option (List Info) :=
  collectInfos env ((env.partitions.filter (buildKeep filterStr)).map Partition.mountpoint)

/-! ## Claims -/

theorem joinL_eq_intercalate (sep : Str) : ∀ ls : List Str, joinL sep ls = List.intercalate sep ls := by
  intro ls
  induction ls with
  | nil => simp [joinL, List.intercalate]
  | cons x rest ih =>
    cases rest with
    | nil => simp [joinL, List.intercalate]
    | cons y rest' =>
      show x ++ sep ++ joinL sep (y :: rest') = _
      rw [ih]
      simp [List.intercalate, List.append_assoc]

/-- Modelled from the spec (§4.3): the option string as the spec words it —
`[indexflag,]lowerdir=<reverse(layers) joined by ':'>,upperdir=<upperDir>,workdir=<target>/work`. -/
def mountDataSpec (indexOff : Bool) (target upperDir : Str) (layers : List Str) : Str :=
  (if indexOff then str "index=off," else []) ++ str "lowerdir=" ++
    List.intercalate (str ":") layers.reverse ++ str ",upperdir=" ++ upperDir ++
    str ",workdir=" ++ pathJoin target (str "work")

/-- C2: for every non-empty layer list, upper directory and non-empty target
the option string built by `Mount` is the optional `index=off,` flag, then
`lowerdir=` with the layers reversed and joined by `:`, then `,upperdir=`
and the upper directory, then `,workdir=` and `target/work`; `Mount` passes
exactly this string to the mount syscall, and on the concrete example
layers=["base","app"], upperDir="/up", target="/merged" with the flag absent
it is `lowerdir=app:base,upperdir=/up,workdir=/merged/work`. -/
theorem C2_mount_option_string (io : Bool) (target upperDir : Str) (layers : List Str)
    (h1 : layers ≠ []) (h2 : target ≠ []) :
    mountOptionString io target upperDir layers = mountDataSpec io target upperDir layers ∧
    (∀ env : MountEnv, env.mkdirOk = true →
      FsEvent.mountCall (str "overlay") target (str "overlay")
          (mountDataSpec (indexOffFlag env.statIndex) target upperDir layers) ∈
        (Overlay2Mount env target upperDir layers).2) ∧
    mountOptionString false (str "/merged") (str "/up") [str "base", str "app"] =
      str "lowerdir=app:base,upperdir=/up,workdir=/merged/work" := by
  have hdata : ∀ io' : Bool, mountOptionString io' target upperDir layers =
      mountDataSpec io' target upperDir layers := by
    intro io'
    unfold mountOptionString mountData mountDataSpec utilsReverse
    rw [joinL_eq_intercalate]
    rfl
  refine ⟨hdata io, ?_, by decide⟩
  intro env hmk
  unfold Overlay2Mount
  rw [if_neg h2, if_neg h1, if_neg (by simp [hmk])]
  have : mountData (indexOffFlag env.statIndex) upperDir layers (pathJoin target (str "work")) =
      mountDataSpec (indexOffFlag env.statIndex) target upperDir layers := hdata _
  rw [this]
  cases env.mountRes <;> simp

theorem C2_witness :
    mountOptionString false (str "/merged") (str "/up") [str "base", str "app"] =
      mountDataSpec false (str "/merged") (str "/up") [str "base", str "app"] ∧
    (∀ env : MountEnv, env.mkdirOk = true →
      FsEvent.mountCall (str "overlay") (str "/merged") (str "overlay")
          (mountDataSpec (indexOffFlag env.statIndex) (str "/merged") (str "/up")
            [str "base", str "app"]) ∈
        (Overlay2Mount env (str "/merged") (str "/up") [str "base", str "app"]).2) ∧
    mountOptionString false (str "/merged") (str "/up") [str "base", str "app"] =
      str "lowerdir=app:base,upperdir=/up,workdir=/merged/work" :=
  C2_mount_option_string false (str "/merged") (str "/up") [str "base", str "app"]
    (by decide) (by decide)

/-- C3: `Mount` with an empty target or an empty layer list returns one of
the two invalid-argument errors and performs no directory creation, no mount
call and no removal. -/
theorem C3_invalid_args_no_effects (env : MountEnv) (target upperLayer : Str)
    (layers : List Str) (h : target = [] ∨ layers = []) :
    ((Overlay2Mount env target upperLayer layers).1 = .errTargetEmpty ∨
     (Overlay2Mount env target upperLayer layers).1 = .errLayersEmpty) ∧
    (Overlay2Mount env target upperLayer layers).2 = [] := by
  rcases h with h | h
  · subst h
    simp [Overlay2Mount]
  · by_cases ht : target = []
    · subst ht
      simp [Overlay2Mount]
    · subst h
      simp [Overlay2Mount, ht]

theorem C3_witness :
    ((Overlay2Mount ⟨true, .ok, none, true⟩ [] (str "/up") [str "a"]).1 = .errTargetEmpty ∨
     (Overlay2Mount ⟨true, .ok, none, true⟩ [] (str "/up") [str "a"]).1 = .errLayersEmpty) ∧
    (Overlay2Mount ⟨true, .ok, none, true⟩ [] (str "/up") [str "a"]).2 = [] :=
  C3_invalid_args_no_effects _ _ _ _ (Or.inl rfl)

/-- C4: after validation and work-directory creation, a failing mount
returns the error wrapping the target and the cause and removes the
just-created work directory; a succeeding mount returns ok and leaves the
work directory in place; the outcome of the ignored removal never changes
the result. -/
theorem C4_mount_failure_cleanup (env : MountEnv) (target upperLayer : Str) (layers : List Str)
    (h1 : target ≠ []) (h2 : layers ≠ []) (h3 : env.mkdirOk = true) :
    (∀ cause, env.mountRes = some cause →
      (Overlay2Mount env target upperLayer layers).1 = .errMount target cause ∧
      FsEvent.mkdir (pathJoin target (str "work")) ∈ (Overlay2Mount env target upperLayer layers).2 ∧
      FsEvent.removeAll (pathJoin target (str "work")) ∈
        (Overlay2Mount env target upperLayer layers).2) ∧
    (env.mountRes = none →
      (Overlay2Mount env target upperLayer layers).1 = .ok ∧
      FsEvent.mkdir (pathJoin target (str "work")) ∈ (Overlay2Mount env target upperLayer layers).2 ∧
      (∀ d, FsEvent.removeAll d ∉ (Overlay2Mount env target upperLayer layers).2)) ∧
    (∀ r : Bool,
      Overlay2Mount ⟨env.mkdirOk, env.statIndex, env.mountRes, r⟩ target upperLayer layers =
        Overlay2Mount env target upperLayer layers) := by
  refine ⟨?_, ?_, ?_⟩
  · intro cause hc
    simp [Overlay2Mount, h1, h2, h3, hc]
  · intro hc
    simp [Overlay2Mount, h1, h2, h3, hc]
  · intro r
    obtain ⟨mk, st, mr, rm⟩ := env
    rfl

theorem C4_witness :
    (Overlay2Mount ⟨true, .ok, some 7, true⟩ (str "/merged") (str "/up") [str "a"]).1 =
      .errMount (str "/merged") 7 ∧
    FsEvent.mkdir (pathJoin (str "/merged") (str "work")) ∈
      (Overlay2Mount ⟨true, .ok, some 7, true⟩ (str "/merged") (str "/up") [str "a"]).2 ∧
    FsEvent.removeAll (pathJoin (str "/merged") (str "work")) ∈
      (Overlay2Mount ⟨true, .ok, some 7, true⟩ (str "/merged") (str "/up") [str "a"]).2 :=
  (C4_mount_failure_cleanup ⟨true, .ok, some 7, true⟩ (str "/merged") (str "/up") [str "a"]
    (by decide) (by decide) rfl).1 7 rfl

/-- C5: when the probe reports overlay unsupported — in particular when
`modprobe` fails or no `/proc/filesystems` line equals `nodev\toverlay` —
`NewMountDriver` returns the fallback driver; when it reports supported, the
overlay driver. -/
theorem C5_driver_choice (env : ProbeEnv) :
    (env.modprobeOk = false → NewMountDriver env = .defaultDriver) ∧
    (∀ lines, env.procFilesystems = some lines →
      (∀ l ∈ lines, l ≠ str "nodev\toverlay") → NewMountDriver env = .defaultDriver) ∧
    (supportsOverlay env = false → NewMountDriver env = .defaultDriver) ∧
    (supportsOverlay env = true → NewMountDriver env = .overlay2) := by
  refine ⟨?_, ?_, ?_, ?_⟩
  · intro h
    simp [NewMountDriver, supportsOverlay, h]
  · intro lines hl hno
    by_cases hm : env.modprobeOk = false
    · simp [NewMountDriver, supportsOverlay, hm]
    · have hsup : supportsOverlay env = false := by
        unfold supportsOverlay
        rw [if_neg hm, hl]
        rw [Bool.eq_false_iff]
        intro hany
        rw [List.any_eq_true] at hany
        obtain ⟨x, hx, he⟩ := hany
        exact hno x hx (by simpa using he)
      simp [NewMountDriver, hsup]
  · intro h
    simp [NewMountDriver, h]
  · intro h
    simp [NewMountDriver, h]

theorem C5_witness : NewMountDriver ⟨false, none⟩ = .defaultDriver :=
  (C5_driver_choice ⟨false, none⟩).1 rfl

/-- C6: the parser returns found=false when the line does not contain the
target, and also when the line contains no `,upperdir=` marker. -/
theorem C6_parser_not_found (result target : Str) :
    (strContains result target = false → mountCmdResultSplit result target = .notFound) ∧
    (strContains result upM = false → mountCmdResultSplit result target = .notFound) := by
  constructor
  · intro h
    simp [mountCmdResultSplit, h]
  · intro h
    by_cases hc : strContains result target = false
    · simp [mountCmdResultSplit, hc]
    · have hlen : (splitOnL result upM).length < 2 := by
        rw [splitOnL_no h]
        simp
      simp [mountCmdResultSplit, hc, hlen]

theorem C6_witness :
    mountCmdResultSplit (str "abc") (str "xyz") = .notFound ∧
    mountCmdResultSplit (str "hello") (str "h") = .notFound :=
  ⟨(C6_parser_not_found (str "abc") (str "xyz")).1 (by decide),
   (C6_parser_not_found (str "hello") (str "h")).2 (by decide)⟩

/-- C10: whenever the parser returns found, the Target field of the returned
Info is the queried target argument verbatim — the mount-point path present
in the line is never read into the result. -/
theorem C10_target_verbatim (result target : Str) (info : Info)
    (h : mountCmdResultSplit result target = .found info) : info.Target = target := by
  unfold mountCmdResultSplit at h
  split at h
  · exact absurd h (by simp)
  · split at h
    · exact absurd h (by simp)
    · split at h
      · exact absurd h (by simp)
      · simp only [ParseResult.found.injEq] at h
        rw [← h]

theorem C10_witness :
    (Info.mk (str "/mnt") (str "/u") [str "b", str "a"]).Target = str "/mnt" :=
  C10_target_verbatim
    (str "overlay on /mnt type overlay (rw,lowerdir=a:b,upperdir=/u,workdir=/w)")
    (str "/mnt") _ (by decide)

/-- Modelled from the spec (§4.6): "passes the first matching line to
MountInfoParser" — the first line of the query output containing the
target. -/
def firstMatchingLine (result target : Str) : Str :=
  ((splitOnL result (str "\n")).filter (fun l => strContains l target)).headD []

/-- Modelled from the spec (§4.6): the lookup result the spec describes,
parsing only the first matching line. -/
def specFirstLineResult (result target : Str) : ParseResult :=
  mountCmdResultSplit (firstMatchingLine result target) target

/-- A two-line mount-table query output on which parsing the whole output
differs from parsing the first matching line. -/
def c7Line : Str :=
  str "/m type ext4 (rw)\n/m2 type overlay (rw,lowerdir=a:b,upperdir=/u,workdir=/w)"

def c7Env : SysEnv :=
  ⟨fun c => if c = str "mount | grep /m" then some c7Line else none, []⟩

/-- C7 counterexample: `GetMountDetails` does not parse the first matching
line alone — on a grep output whose first matching line has no `,upperdir=`
marker, it returns a parse assembled across lines, while parsing the first
matching line alone returns found=false. -/
theorem C7_counterexample :
    GetMountDetails c7Env (str "/m") = .found ⟨str "/m", str "/u", [str "b", str "a"]⟩ ∧
    firstMatchingLine c7Line (str "/m") = str "/m type ext4 (rw)" ∧
    specFirstLineResult c7Line (str "/m") = .notFound ∧
    GetMountDetails c7Env (str "/m") ≠ specFirstLineResult c7Line (str "/m") := by decide

/-- C7 (amended): `GetMountDetails` and `GetRemoteMountDetails` pass the
entire (possibly multi-line) query output to the parser, so the result
equals parsing the whole output — not necessarily parsing the first
matching line alone. -/
theorem C7_lookup_passes_whole_output (env : SysEnv) (s : SSHEnv) (ip target result : Str) :
    (env.runSimpleCmd (str "mount | grep " ++ target) = some result →
      GetMountDetails env target = mountCmdResultSplit result target) ∧
    (s.cmd ip (str "mount | grep " ++ target) = some result →
      GetRemoteMountDetails s ip target = mountCmdResultSplit result target) := by
  constructor
  · intro h
    simp [GetMountDetails, h]
  · intro h
    simp [GetRemoteMountDetails, h]

theorem C7_witness :
    GetMountDetails c7Env (str "/m") = mountCmdResultSplit c7Line (str "/m") :=
  (C7_lookup_passes_whole_output c7Env ⟨fun _ _ => none⟩ [] (str "/m") c7Line).1 (by decide)

theorem collectInfos_spec (env : SysEnv) :
    ∀ (mps : List Str) (l : List Info), collectInfos env mps = some l →
      (∀ info ∈ l, ∃ mp ∈ mps, GetMountDetails env mp = .found info) ∧
      l = mps.filterMap (fun mp =>
        match GetMountDetails env mp with
        | .found i => some i
        | _ => none) := by
  intro mps
  induction mps with
  | nil =>
    intro l h
    unfold collectInfos at h
    simp only [Option.some.injEq] at h
    subst h
    simp
  | cons p rest ih =>
    intro l h
    unfold collectInfos at h
    cases hg : GetMountDetails env p with
    | panic => rw [hg] at h; exact absurd h (by simp)
    | notFound =>
      rw [hg] at h
      obtain ⟨h1, h2⟩ := ih l h
      constructor
      · intro info hi
        obtain ⟨mp, hmp, he⟩ := h1 info hi
        exact ⟨mp, by simp [hmp], he⟩
      · rw [List.filterMap_cons, hg]
        exact h2
    | found i =>
      rw [hg] at h
      cases hr : collectInfos env rest with
      | none => rw [hr] at h; exact absurd h (by simp)
      | some l' =>
        rw [hr] at h
        simp only [Option.map_some', Option.some.injEq] at h
        subst h
        obtain ⟨h1, h2⟩ := ih l' hr
        constructor
        · intro info hi
          rcases List.mem_cons.mp hi with hi | hi
          · exact ⟨p, by simp, by rw [hg, hi]⟩
          · obtain ⟨mp, hmp, he⟩ := h1 info hi
            exact ⟨mp, by simp [hmp], he⟩
        · rw [List.filterMap_cons, hg, ← h2]

/-- C8: every entry returned by `GetBuildMountInfo` originates from an
enumerated partition whose filesystem type is "overlay" and whose mount
point contains both the fixed "sealer" marker and the filter substring, and
the returned list is exactly the successful parses of the retained mount
points in enumeration order. -/
theorem C8_build_mount_info (env : SysEnv) (filterStr : Str) (l : List Info)
    (h : GetBuildMountInfo env filterStr = some l) :
    (∀ info ∈ l, ∃ p ∈ env.partitions,
      p.fstype = str "overlay" ∧ strContains p.mountpoint (str "sealer") = true ∧
      strContains p.mountpoint filterStr = true ∧
      GetMountDetails env p.mountpoint = .found info) ∧
    l = ((env.partitions.filter (buildKeep filterStr)).map Partition.mountpoint).filterMap
      (fun mp =>
        match GetMountDetails env mp with
        | .found i => some i
        | _ => none) := by
  obtain ⟨h1, h2⟩ := collectInfos_spec env _ l h
  refine ⟨?_, h2⟩
  intro info hi
  obtain ⟨mp, hmp, he⟩ := h1 info hi
  rw [List.mem_map] at hmp
  obtain ⟨p, hp, rfl⟩ := hmp
  rw [List.mem_filter] at hp
  obtain ⟨hmem, hkeep⟩ := hp
  unfold buildKeep at hkeep
  simp only [Bool.and_eq_true, beq_iff_eq] at hkeep
  exact ⟨p, hmem, hkeep.1.1, hkeep.1.2, hkeep.2, he⟩

/-- Concrete system environment for the C8 witness. -/
def c8Env : SysEnv :=
  ⟨fun c =>
      if c = str "mount | grep /var/lib/sealer/x" then
        some (str "overlay on /var/lib/sealer/x type overlay (rw,lowerdir=a:b,upperdir=/u,workdir=/w)")
      else none,
   [⟨str "overlay", str "/var/lib/sealer/x"⟩, ⟨str "ext4", str "/home"⟩]⟩

theorem C8_witness :
    (∀ info ∈ [Info.mk (str "/var/lib/sealer/x") (str "/u") [str "b", str "a"]],
      ∃ p ∈ c8Env.partitions,
        p.fstype = str "overlay" ∧ strContains p.mountpoint (str "sealer") = true ∧
        strContains p.mountpoint (str "x") = true ∧
        GetMountDetails c8Env p.mountpoint = .found info) ∧
    [Info.mk (str "/var/lib/sealer/x") (str "/u") [str "b", str "a"]] =
      ((c8Env.partitions.filter (buildKeep (str "x"))).map Partition.mountpoint).filterMap
        (fun mp =>
          match GetMountDetails c8Env mp with
          | .found i => some i
          | _ => none) :=
  C8_build_mount_info c8Env (str "x")
    [Info.mk (str "/var/lib/sealer/x") (str "/u") [str "b", str "a"]] (by decide)

/-- C9 counterexample: a line containing the target and `,upperdir=` but no
`,lowerdir=` makes the field access out of bounds — the parser panics
instead of staying in bounds. -/
theorem C9_counterexample :
    strContains (str "x ,upperdir=/u") (str "x") = true ∧
    strContains (str "x ,upperdir=/u") upM = true ∧
    (splitOnL ((splitOnL (str "x ,upperdir=/u") upM).getD 0 []) lowM).length < 2 ∧
    mountCmdResultSplit (str "x ,upperdir=/u") (str "x") = .panic := by decide

/-- C9 (amended): the parser is not total — the access to the field after
`,lowerdir=` is out of bounds (a Go panic) exactly when the line contains
the target and `,upperdir=` but the portion before the first `,upperdir=`
lacks `,lowerdir=`; it stays in bounds whenever that portion contains
`,lowerdir=`. -/
theorem C9_panic_iff (result target : Str) :
    mountCmdResultSplit result target = .panic ↔
      strContains result target = true ∧ strContains result upM = true ∧
      strContains ((splitOnL result upM).getD 0 []) lowM = false := by
  have hupne : upM ≠ [] := by decide
  have hlowne : lowM ≠ [] := by decide
  unfold mountCmdResultSplit
  by_cases h1 : strContains result target = false
  · simp [h1]
  · rw [Bool.not_eq_false] at h1
    by_cases h2 : (splitOnL result upM).length < 2
    · have hup : strContains result upM = false := by
        rw [Bool.eq_false_iff]
        intro hc
        have := (splitOnL_two_iff hupne).mpr hc
        omega
      simp [h1, h2, hup]
    · have hup : strContains result upM = true := (splitOnL_two_iff hupne).mp (by omega)
      rw [if_neg (by simp [h1]), if_neg h2]
      cases hm : (splitOnL ((splitOnL result upM).getD 0 []) lowM).get? 1 with
      | none =>
        have hlow : strContains ((splitOnL result upM).getD 0 []) lowM = false := by
          rw [List.get?_eq_none] at hm
          rw [Bool.eq_false_iff]
          intro hc
          have := (splitOnL_two_iff hlowne).mpr hc
          omega
        rw [List.getD_eq_getElem?_getD] at hlow
        simp [h1, hup, hlow]
      | some lowfield =>
        have hlow : strContains ((splitOnL result upM).getD 0 []) lowM = true := by
          apply (splitOnL_two_iff hlowne).mp
          obtain ⟨hlt, _⟩ := List.get?_eq_some.mp hm
          omega
        rw [List.getD_eq_getElem?_getD] at hlow
        simp [h1, hup, hlow]

/-- C1 counterexample: without the `index=off,` flag, Mount's own option
string starts `lowerdir=` with no preceding comma, so the portion before
`,upperdir=` has no `,lowerdir=` marker and the parser panics (Go: index out
of range) instead of returning found=true with the original layers. -/
theorem C1_counterexample :
    strContains (mountOptionString false (str "/merged") (str "/up") [str "base", str "app"])
      (str "/merged") = true ∧
    mountCmdResultSplit
      (mountOptionString false (str "/merged") (str "/up") [str "base", str "app"])
      (str "/merged") = .panic ∧
    mountCmdResultSplit
      (mountOptionString false (str "/merged") (str "/up") [str "base", str "app"])
      (str "/merged") ≠ .found ⟨str "/merged", str "/up", [str "base", str "app"]⟩ := by decide

/-- The found-branch of the parser, as one equation. -/
theorem mountCmdResultSplit_found {result target lowfield : Str}
    (h1 : strContains result target = true)
    (h2 : ¬ (splitOnL result upM).length < 2)
    (h3 : (splitOnL ((splitOnL result upM).getD 0 []) lowM).get? 1 = some lowfield) :
    mountCmdResultSplit result target =
      .found ⟨target, trimSpaceL ((splitOnL ((splitOnL result upM).getD 1 []) wkM).getD 0 []),
              utilsReverse (splitOnL lowfield (str ":"))⟩ := by
  unfold mountCmdResultSplit
  rw [if_neg (by simp [h1]), if_neg h2, h3]

/-- C1 (amended): with the `index=off,` flag present, for every target,
upper directory free of the `,upperdir=` and `,workdir=` markers and equal
to its own whitespace-trim, and non-empty layer list whose elements contain
no `:` and none of the three markers, feeding Mount's own option string
(containing the target) into the parser returns found=true with the original
layer list and upper directory. -/
theorem C1_roundtrip (target upperDir : Str) (layers : List Str)
    (hne : layers ≠ [])
    (hlay : ∀ l ∈ layers, strContains l (str ":") = false ∧
      strContains l lowM = false ∧ strContains l upM = false ∧ strContains l wkM = false)
    (hup1 : strContains upperDir upM = false)
    (hup2 : strContains upperDir wkM = false)
    (hup3 : trimSpaceL upperDir = upperDir)
    (htgt : strContains (mountOptionString true target upperDir layers) target = true) :
    mountCmdResultSplit (mountOptionString true target upperDir layers) target =
      .found ⟨target, upperDir, layers⟩ := by
  have hupne : upM ≠ [] := by decide
  have hlowne : lowM ≠ [] := by decide
  have hwkne : wkM ≠ [] := by decide
  have huniq_up : uniqFirst upM = true := by decide
  have huniq_wk : uniqFirst wkM = true := by decide
  have hrev : ∀ l ∈ utilsReverse layers, strContains l (str ":") = false ∧
      strContains l lowM = false ∧ strContains l upM = false := by
    intro l hl
    have hmem : l ∈ layers := by
      unfold utilsReverse at hl
      exact List.mem_reverse.mp hl
    exact ⟨(hlay l hmem).1, (hlay l hmem).2.1, (hlay l hmem).2.2.1⟩
  -- abbreviations
  set J := joinL [':'] (utilsReverse layers) with hJdef
  set wd := pathJoin target (str "work") with hwddef
  set B := upperDir ++ (wkM ++ wd) with hBdef
  -- the option string, reassociated
  have hM : mountOptionString true target upperDir layers =
      str "index=off," ++ (str "lowerdir=" ++ (J ++ (upM ++ B))) := by
    rw [hJdef, hBdef, hwddef]
    unfold mountOptionString mountData
    simp only [if_pos, List.append_assoc]
    rfl
  -- join facts
  have hJup : strContains J upM = false := by
    rw [hJdef]
    exact contains_joinL_false hupne (by decide) (fun l hl => (hrev l hl).2.2)
  have hJlow : strContains J lowM = false := by
    rw [hJdef]
    exact contains_joinL_false hlowne (by decide) (fun l hl => (hrev l hl).2.1)
  -- step 1: the first split, at `,upperdir=`
  have hns1 : noSpanAB (str "index=off,") upM (str "lowerdir=" ++ (J ++ (upM ++ B))) :=
    noSpan_head_nmem (by
      intro x hx
      have hx2 : some 'l' = some x := hx
      cases hx2
      decide)
  have hns2 : noSpanAB (str "lowerdir=") upM (J ++ (upM ++ B)) := by
    apply noSpan_spanFree
    decide
  have hns3 : noSpanAB J upM (upM ++ B) :=
    noSpan_head_eq huniq_up rfl
  have hcut1 : cutFirst upM (mountOptionString true target upperDir layers) =
      some (str "index=off," ++ (str "lowerdir=" ++ J), B) := by
    rw [hM]
    rw [cutFirst_master hupne (by decide) hns1]
    rw [cutFirst_master hupne (by decide) hns2]
    rw [cutFirst_master hupne hJup hns3]
    rw [cutFirst_self hupne]
    simp
  have hdata : splitOnL (mountOptionString true target upperDir layers) upM =
      (str "index=off," ++ (str "lowerdir=" ++ J)) :: splitOnL B upM :=
    splitOnL_of_some hupne hcut1
  have hlen : ¬ (splitOnL (mountOptionString true target upperDir layers) upM).length < 2 := by
    rw [hdata]
    have hpos : 0 < (splitOnL B upM).length := List.length_pos.mpr splitOnL_ne_nil
    simp only [List.length_cons]
    omega
  -- step 2: lower layers out of data[0]
  have hA : str "index=off," ++ (str "lowerdir=" ++ J) = str "index=off" ++ (lowM ++ J) := rfl
  have hns4 : noSpanAB (str "index=off") lowM (lowM ++ J) :=
    noSpan_head_eq (by decide) rfl
  have hcut2 : cutFirst lowM (str "index=off," ++ (str "lowerdir=" ++ J)) =
      some (str "index=off", J) := by
    rw [hA]
    rw [cutFirst_master hlowne (by decide) hns4]
    rw [cutFirst_self hlowne]
    rfl
  have hsplitA : splitOnL (str "index=off," ++ (str "lowerdir=" ++ J)) lowM =
      [str "index=off", J] := by
    rw [splitOnL_of_some hlowne hcut2, splitOnL_no hJlow]
  have hget : (splitOnL ((splitOnL (mountOptionString true target upperDir layers) upM).getD 0 [])
      lowM).get? 1 = some J := by
    rw [hdata]
    show (splitOnL (str "index=off," ++ (str "lowerdir=" ++ J)) lowM).get? 1 = some J
    rw [hsplitA]
    rfl
  -- step 3: the upper directory out of data[1]
  have hns5 : noSpanAB upperDir upM (wkM ++ wd) :=
    noSpan_head_eq huniq_up rfl
  have hns6 : noSpanAB wkM upM wd := by
    apply noSpan_spanFree
    decide
  have hm1 : cutFirst upM B = Option.map (fun p => (upperDir ++ p.1, p.2)) (cutFirst upM (wkM ++ wd)) := by
    rw [hBdef]
    exact cutFirst_master hupne hup1 hns5
  have hm2 : cutFirst upM (wkM ++ wd) = Option.map (fun p => (wkM ++ p.1, p.2)) (cutFirst upM wd) :=
    cutFirst_master hupne (by decide) hns6
  have hB0 : ∃ wd2 : Str, (splitOnL B upM).getD 0 [] = upperDir ++ (wkM ++ wd2) := by
    cases hw : cutFirst upM wd with
    | none =>
      refine ⟨wd, ?_⟩
      have hend : cutFirst upM B = none := by
        rw [hm1, hm2, hw]
        rfl
      rw [splitOnL_of_none hend]
      rw [hBdef]
      rfl
    | some p =>
      obtain ⟨x, y⟩ := p
      refine ⟨x, ?_⟩
      have hend : cutFirst upM B = some (upperDir ++ (wkM ++ x), y) := by
        rw [hm1, hm2, hw]
        simp
      rw [splitOnL_of_some hupne hend]
      rfl
  obtain ⟨wd2, hB0⟩ := hB0
  have hns7 : noSpanAB upperDir wkM (wkM ++ wd2) :=
    noSpan_head_eq huniq_wk rfl
  have hupcut : cutFirst wkM (upperDir ++ (wkM ++ wd2)) = some (upperDir, wd2) := by
    rw [cutFirst_master hwkne hup2 hns7, cutFirst_self hwkne]
    simp
  have hupper : trimSpaceL ((splitOnL ((splitOnL (mountOptionString true target upperDir layers)
      upM).getD 1 []) wkM).getD 0 []) = upperDir := by
    rw [hdata]
    show trimSpaceL ((splitOnL ((splitOnL B upM).getD 0 []) wkM).getD 0 []) = upperDir
    rw [hB0, splitOnL_of_some hwkne hupcut]
    exact hup3
  -- step 4: assembling the parse
  have hlows : utilsReverse (splitOnL J (str ":")) = layers := by
    show utilsReverse (splitOnL J [':']) = layers
    rw [hJdef]
    rw [splitOnL_joinL (by simp [utilsReverse, hne]) (fun l hl => (hrev l hl).1)]
    unfold utilsReverse
    exact List.reverse_reverse layers
  rw [mountCmdResultSplit_found htgt hlen hget, hupper, hlows]

theorem C1_witness :
    mountCmdResultSplit
      (mountOptionString true (str "/merged") (str "/up") [str "base", str "app"])
      (str "/merged") = .found ⟨str "/merged", str "/up", [str "base", str "app"]⟩ :=
  C1_roundtrip (str "/merged") (str "/up") [str "base", str "app"]
    (by decide) (by decide) (by decide) (by decide) (by decide) (by decide)
example : cutFirst (str ",") (str "a,b,c") = some (str "a", str "b,c") := by decide
example : splitOnL (str "a:b:c") (str ":") = [str "a", str "b", str "c"] := by decide
example : splitOnL (str "abc") (str ",upperdir=") = [str "abc"] := by decide
example : strContains (str "xlowerdir=y") (str "lowerdir=") = true := by decide
example : strContains (str "xyz") (str "lowerdir=") = false := by decide
example : trimSpaceL (str "  /up ") = str "/up" := by decide
example : pathClean (str "/merged/work") = str "/merged/work" := by decide
example : pathClean (str "a/../../b/") = str "../b" := by decide
example : pathJoin (str "/merged") (str "work") = str "/merged/work" := by decide
example : joinL (str ":") [str "app", str "base"] = str "app:base" := by decide
